import Mathlib

/-!
Verification of the configuration-manager core (src/go/configmanager/config_manager.go).

The Go source is shallowly embedded below: protobuf messages become Lean
structures, the builder functions become pure Lean functions, the Go map
`rulesMap` becomes an association list with insert-or-overwrite semantics
(matching `m[k] = v`), HTTP fetches become an injected oracle function, and a
Go nil-pointer panic is an explicit constructor of the result type.
-/

namespace ConfigManager

/-! ### Data model: the service configuration document (input) -/

structure ApiMethod where
  name : String
deriving DecidableEq

structure SourceContext where
  fileName : String
deriving DecidableEq

structure Api where
  name : String
  methods : List ApiMethod
  sourceContext : SourceContext
deriving DecidableEq

structure AuthProviderCfg where
  id : String
  issuer : String
  jwksUri : String
  audiences : String
deriving DecidableEq

structure AuthRequirementCfg where
  providerId : String
  audiences : String
deriving DecidableEq

structure AuthRuleCfg where
  selector : String
  requirements : List AuthRequirementCfg
deriving DecidableEq

structure Authentication where
  providers : List AuthProviderCfg
  rules : List AuthRuleCfg
deriving DecidableEq

/-- The five HTTP-binding variants the Go type switch recognises
(`annotations.HttpRule_Get` … `HttpRule_Patch`); the `Option` wrapper in
`HttpRule.pattern` models a oneof that is unset or of an unrecognised
variant, which falls through the switch unchanged. -/
inductive HttpPattern where
  | get (tmpl : String)
  | put (tmpl : String)
  | post (tmpl : String)
  | delete (tmpl : String)
  | patch (tmpl : String)
deriving DecidableEq

structure HttpRule where
  selector : String
  pattern : Option HttpPattern
deriving DecidableEq

structure HttpBlock where
  rules : List HttpRule
deriving DecidableEq

structure UsageRule where
  selector : String
  allowUnregisteredCalls : Bool
deriving DecidableEq

structure UsageBlock where
  rules : List UsageRule
deriving DecidableEq

structure Control where
  environment : String
deriving DecidableEq

inductive FileType where
  | fileDescriptorSetProto
  | other
deriving DecidableEq

structure ConfigFile where
  fileType : FileType
  fileContents : String
deriving DecidableEq

structure SourceInfo where
  sourceFiles : List ConfigFile
deriving DecidableEq

structure Service where
  name : String
  apis : List Api
  sourceInfo : SourceInfo
  authentication : Authentication
  http : HttpBlock
  usage : UsageBlock
  control : Control
deriving DecidableEq

/-! ### Fixed URIs (constants of the Go file) -/

def tokenUri : String :=
  "http://169.254.169.254/computeMetadata/v1/instance/service-accounts/default/token"

def serviceControlUri : String := "https://servicecontrol.googleapis.com/v1/services/"

/-! ### Service-control filter output types (scpb messages) -/

inductive APIKey where
  | query (k : String)
  | header (k : String)
deriving DecidableEq

structure APIKeyRequirement where
  allowWithoutApiKey : Bool
  apiKeys : List APIKey
deriving DecidableEq

structure Requirement where
  serviceName : String
  operationName : String
  apiKey : Option APIKeyRequirement
deriving DecidableEq

structure Pattern where
  uriTemplate : String
  httpMethod : String
deriving DecidableEq

structure ServiceControlRule where
  requires : Requirement
  pattern : Pattern
deriving DecidableEq

structure SCService where
  serviceName : String
  tokenUriVal : String
  serviceControlUriVal : String
deriving DecidableEq

structure FilterConfig where
  services : List SCService
  serviceName : String
  serviceControlUriVal : String
  rules : List ServiceControlRule
deriving DecidableEq

/-! ### Association list mirroring the Go map `rulesMap` -/

abbrev AList (α : Type) : Type := List (String × α)

def alistGet {α : Type} (m : List (String × α)) (k : String) : Option α :=
  match m with
  | [] => none
  | (k', v) :: rest => if k' = k then some v else alistGet rest k

def alistSet {α : Type} (m : List (String × α)) (k : String) (v : α) :
    List (String × α) :=
  match m with
  | [] => [(k, v)]
  | (k', v') :: rest => if k' = k then (k, v) :: rest else (k', v') :: alistSet rest k v

def hasKey {α : Type} (m : List (String × α)) (k : String) : Bool :=
  match m with
  | [] => false
  | (k', _) :: rest => k' = k || hasKey rest k

abbrev keysOf {α : Type} (m : List (String × α)) : List String := m.map Prod.fst

/-! ### The service-control filter builder (`makeServiceControlFilter`) -/

abbrev RulesMap := List (String × ServiceControlRule)

def selectorOf (a : Api) (mth : ApiMethod) : String := a.name ++ "." ++ mth.name

/-- The rule seeded for one method: the gRPC-shaped default pattern and the
selector as operation name. -/
def defaultRule (svcName : String) (a : Api) (mth : ApiMethod) : ServiceControlRule :=
  { requires :=
      { serviceName := svcName
        operationName := selectorOf a mth
        apiKey := none }
    pattern :=
      { uriTemplate := "/" ++ a.name ++ "/" ++ mth.name
        httpMethod := "POST" } }

def seedApi (svcName : String) (m : RulesMap) (a : Api) : RulesMap :=
  a.methods.foldl (fun m mth => alistSet m (selectorOf a mth) (defaultRule svcName a mth)) m

def seedRules (svcName : String) (apis : List Api) : RulesMap :=
  apis.foldl (seedApi svcName) []

/-- All selectors `<api>.<method>` of the document, in seeding order. -/
def methodSelectors (apis : List Api) : List String :=
  apis.flatMap fun a => a.methods.map (selectorOf a)

def verbPattern : HttpPattern → Pattern
  | .get t => { uriTemplate := t, httpMethod := "GET" }
  | .put t => { uriTemplate := t, httpMethod := "PUT" }
  | .post t => { uriTemplate := t, httpMethod := "POST" }
  | .delete t => { uriTemplate := t, httpMethod := "DELETE" }
  | .patch t => { uriTemplate := t, httpMethod := "PATCH" }

/-- One step of the `http.rules` loop.  `none` models the Go nil-pointer panic:
the selector missed the map and a recognised pattern variant forces
`scRule.Pattern = …` on a nil pointer.  An unset/unrecognised pattern matches
no case of the type switch and the entry is passed over. -/
def applyHttpRule (m : RulesMap) (hr : HttpRule) : Option RulesMap :=
  match hr.pattern with
  | none => some m
  | some p =>
    match alistGet m hr.selector with
    | none => none
    | some r => some (alistSet m hr.selector { r with pattern := verbPattern p })

def applyHttpRules (m : RulesMap) : List HttpRule → Option RulesMap
  | [] => some m
  | hr :: rest =>
    match applyHttpRule m hr with
    | none => none
    | some m' => applyHttpRules m' rest

def apiKeyRequirementFor (u : UsageRule) : APIKeyRequirement :=
  { allowWithoutApiKey := u.allowUnregisteredCalls
    apiKeys := [APIKey.query "key", APIKey.header "x-api-key"] }

/-- One step of the `usage.rules` loop; `none` is the nil-pointer panic on
`scRule.Requires.ApiKey = …` when the selector missed the map. -/
def applyUsageRule (m : RulesMap) (u : UsageRule) : Option RulesMap :=
  match alistGet m u.selector with
  | none => none
  | some r =>
    some (alistSet m u.selector
      { r with requires := { r.requires with apiKey := some (apiKeyRequirementFor u) } })

def applyUsageRules (m : RulesMap) : List UsageRule → Option RulesMap
  | [] => some m
  | u :: rest =>
    match applyUsageRule m u with
    | none => none
    | some m' => applyUsageRules m' rest

/-- Result of `makeServiceControlFilter`: the Go function returns nil
(`noFilter`), returns a filter (`emit`), or crashes with a nil-pointer panic
(`panicked`). -/
inductive SCOutcome where
  | panicked
  | noFilter
  | emit (f : FilterConfig)
deriving DecidableEq

def makeServiceControlFilter (cfg : Service) : SCOutcome :=
  if cfg.name = "" ∨ cfg.control.environment = "" then .noFilter
  else
    match applyHttpRules (seedRules cfg.name cfg.apis) cfg.http.rules with
    | none => .panicked
    | some m1 =>
      match applyUsageRules m1 cfg.usage.rules with
      | none => .panicked
      | some m2 =>
        .emit
          { services :=
              [{ serviceName := cfg.name
                 tokenUriVal := tokenUri
                 serviceControlUriVal := serviceControlUri }]
            serviceName := cfg.name
            serviceControlUriVal := serviceControlUri
            rules := m2.map Prod.snd }

/-- The rule list of the emitted filter (empty when no filter was emitted). -/
def scRulesOf : SCOutcome → List ServiceControlRule
  | .emit f => f.rules
  | _ => []

/-! ### Association-list lemmas -/

theorem alistSet_cons_pos {α : Type} (k : String) (v : α) (k0 : String) (v0 : α)
    (rest : List (String × α)) (h : k0 = k) :
    alistSet ((k0, v0) :: rest) k v = (k, v) :: rest := by
  rw [alistSet, if_pos h]

theorem alistSet_cons_neg {α : Type} (k : String) (v : α) (k0 : String) (v0 : α)
    (rest : List (String × α)) (h : ¬k0 = k) :
    alistSet ((k0, v0) :: rest) k v = (k0, v0) :: alistSet rest k v := by
  rw [alistSet, if_neg h]

theorem alistGet_set_self {α : Type} (m : List (String × α)) (k : String) (v : α) :
    alistGet (alistSet m k v) k = some v := by
  induction m with
  | nil => simp [alistSet, alistGet]
  | cons p rest ih =>
    obtain ⟨k0, v0⟩ := p
    by_cases h : k0 = k
    · simp [alistSet, alistGet, h]
    · simp [alistSet, alistGet, h, ih]

theorem alistGet_set_ne {α : Type} (m : List (String × α)) (k k' : String) (v : α)
    (hne : k ≠ k') : alistGet (alistSet m k v) k' = alistGet m k' := by
  induction m with
  | nil => simp [alistSet, alistGet, hne]
  | cons p rest ih =>
    obtain ⟨k0, v0⟩ := p
    by_cases h : k0 = k
    · subst h
      rw [alistSet_cons_pos _ _ _ _ _ rfl]
      simp [alistGet, hne, Ne.symm hne]
    · rw [alistSet_cons_neg _ _ _ _ _ h]
      by_cases h2 : k0 = k'
      · simp [alistGet, h2]
      · simp [alistGet, h2, ih]

theorem alistGet_isSome_iff {α : Type} (m : List (String × α)) (k : String) :
    (alistGet m k).isSome = hasKey m k := by
  induction m with
  | nil => simp [alistGet, hasKey]
  | cons p rest ih =>
    obtain ⟨k0, v0⟩ := p
    by_cases h : k0 = k
    · simp [alistGet, hasKey, h]
    · simp [alistGet, hasKey, h, ih]

theorem alistGet_eq_none_of_not_hasKey {α : Type} (m : List (String × α)) (k : String)
    (h : hasKey m k = false) : alistGet m k = none := by
  cases hg : alistGet m k with
  | none => rfl
  | some v =>
    have hs := alistGet_isSome_iff m k
    rw [hg, h] at hs
    simp at hs

theorem exists_of_hasKey {α : Type} (m : List (String × α)) (k : String)
    (h : hasKey m k = true) : ∃ v, alistGet m k = some v := by
  cases hg : alistGet m k with
  | some v => exact ⟨v, rfl⟩
  | none =>
    have hs := alistGet_isSome_iff m k
    rw [hg, h] at hs
    simp at hs

theorem hasKey_of_alistGet {α : Type} {m : List (String × α)} {k : String} {v : α}
    (h : alistGet m k = some v) : hasKey m k = true := by
  have hs := alistGet_isSome_iff m k
  rw [h] at hs
  exact hs.symm

theorem hasKey_set {α : Type} (m : List (String × α)) (k k' : String) (v : α) :
    hasKey (alistSet m k v) k' = (hasKey m k' || k = k') := by
  induction m with
  | nil => simp [alistSet, hasKey, eq_comm]
  | cons p rest ih =>
    obtain ⟨k0, v0⟩ := p
    by_cases h : k0 = k
    · subst h
      by_cases h2 : k0 = k' <;> simp [alistSet, hasKey, h2]
    · simp [alistSet, hasKey, h, ih, Bool.or_assoc]

theorem mem_alistSet {α : Type} {m : List (String × α)} {k : String} {v : α} {p : String × α}
    (h : p ∈ alistSet m k v) : p = (k, v) ∨ p ∈ m := by
  induction m with
  | nil => simpa [alistSet] using h
  | cons q rest ih =>
    obtain ⟨k0, v0⟩ := q
    by_cases h0 : k0 = k
    · rw [alistSet_cons_pos _ _ _ _ _ h0] at h
      rcases List.mem_cons.mp h with h1 | h1
      · exact Or.inl h1
      · exact Or.inr (List.mem_cons_of_mem _ h1)
    · rw [alistSet_cons_neg _ _ _ _ _ h0] at h
      rcases List.mem_cons.mp h with h1 | h1
      · exact Or.inr (h1 ▸ List.mem_cons_self _ _)
      · rcases ih h1 with h2 | h2
        · exact Or.inl h2
        · exact Or.inr (List.mem_cons_of_mem _ h2)

theorem mem_of_alistGet {α : Type} {m : List (String × α)} {k : String} {v : α}
    (h : alistGet m k = some v) : (k, v) ∈ m := by
  induction m with
  | nil => simp [alistGet] at h
  | cons p rest ih =>
    obtain ⟨k0, v0⟩ := p
    by_cases h0 : k0 = k
    · subst h0
      rw [alistGet, if_pos rfl, Option.some.injEq] at h
      subst h
      exact List.mem_cons_self _ _
    · rw [alistGet, if_neg h0] at h
      exact List.mem_cons_of_mem _ (ih h)

theorem mem_keysOf_set {α : Type} {m : List (String × α)} {k a : String} {v : α}
    (h : a ∈ keysOf (alistSet m k v)) : a = k ∨ a ∈ keysOf m := by
  rw [keysOf, List.mem_map] at h
  obtain ⟨p, hp, ha⟩ := h
  rcases mem_alistSet hp with h1 | h1
  · left
    rw [← ha, h1]
  · right
    rw [keysOf, List.mem_map]
    exact ⟨p, h1, ha⟩

theorem keysOf_set_nodup {α : Type} :
    ∀ (m : List (String × α)) (k : String) (v : α),
      (keysOf m).Nodup → (keysOf (alistSet m k v)).Nodup := by
  intro m
  induction m with
  | nil =>
    intro k v _
    simp [alistSet, keysOf]
  | cons p rest ih =>
    intro k v h
    obtain ⟨k0, v0⟩ := p
    simp only [keysOf, List.map_cons, List.nodup_cons] at h
    obtain ⟨hnotin, hnd⟩ := h
    by_cases h0 : k0 = k
    · subst h0
      rw [alistSet_cons_pos _ _ _ _ _ rfl]
      simp only [keysOf, List.map_cons, List.nodup_cons]
      exact ⟨hnotin, hnd⟩
    · rw [alistSet_cons_neg _ _ _ _ _ h0]
      simp only [keysOf, List.map_cons, List.nodup_cons]
      refine ⟨?_, ih k v hnd⟩
      intro hmem
      rcases mem_keysOf_set hmem with h1 | h1
      · exact h0 h1
      · exact hnotin h1

theorem alistGet_of_mem_nodup {α : Type} :
    ∀ (m : List (String × α)) (k : String) (v : α),
      (keysOf m).Nodup → (k, v) ∈ m → alistGet m k = some v := by
  intro m
  induction m with
  | nil =>
    intro k v _ h
    simp at h
  | cons p rest ih =>
    intro k v hnd hm
    obtain ⟨k0, v0⟩ := p
    simp only [keysOf, List.map_cons, List.nodup_cons] at hnd
    obtain ⟨hnotin, hnd⟩ := hnd
    rcases List.mem_cons.mp hm with h | h
    · injection h with h1 h2
      subst h1
      subst h2
      simp [alistGet]
    · have hne : k0 ≠ k := by
        intro he
        subst he
        exact hnotin (List.mem_map.mpr ⟨(k0, v), h, rfl⟩)
      rw [alistGet, if_neg hne]
      exact ih k v hnd h

theorem mem_map_snd {α : Type} {m : List (String × α)} {v : α}
    (h : v ∈ m.map Prod.snd) : ∃ k, (k, v) ∈ m := by
  rw [List.mem_map] at h
  obtain ⟨⟨k, v'⟩, hp, hv⟩ := h
  cases hv
  exact ⟨k, hp⟩

/-! ### Invariants of the seeded rules map -/

/-- Every entry of the map binds a rule whose operation name is its key and
whose service name is the document's; this is set up by the seeding loop and
never changed afterwards. -/
def RuleBinding (svc : String) (m : RulesMap) : Prop :=
  ∀ k r, (k, r) ∈ m → r.requires.operationName = k ∧ r.requires.serviceName = svc

theorem foldl_preserve {α β : Type} (P : β → Prop) (f : β → α → β) :
    ∀ (l : List α) (init : β), P init → (∀ b a, a ∈ l → P b → P (f b a)) →
      P (l.foldl f init) := by
  intro l
  induction l with
  | nil =>
    intro init h _
    simpa using h
  | cons a rest ih =>
    intro init h hstep
    rw [List.foldl_cons]
    exact ih (f init a) (hstep init a (List.mem_cons_self _ _) h)
      (fun b x hx hb => hstep b x (List.mem_cons_of_mem _ hx) hb)

theorem ruleBinding_set {svc : String} {m : RulesMap} {k : String} {r : ServiceControlRule}
    (hb : RuleBinding svc m) (hop : r.requires.operationName = k)
    (hsvc : r.requires.serviceName = svc) : RuleBinding svc (alistSet m k r) := by
  intro k' r' hmem
  rcases mem_alistSet hmem with h | h
  · injection h with h1 h2
    subst h1
    subst h2
    exact ⟨hop, hsvc⟩
  · exact hb k' r' h

theorem ruleBinding_seedRules (svc : String) (apis : List Api) :
    RuleBinding svc (seedRules svc apis) := by
  unfold seedRules
  apply foldl_preserve (RuleBinding svc)
  · intro k r h
    simp at h
  · intro m a _ hb
    unfold seedApi
    apply foldl_preserve (RuleBinding svc)
    · exact hb
    · intro m' mth _ hb'
      exact ruleBinding_set hb' rfl rfl

theorem keysOf_seedRules_nodup (svc : String) (apis : List Api) :
    (keysOf (seedRules svc apis)).Nodup := by
  unfold seedRules
  apply foldl_preserve (fun m => (keysOf m).Nodup)
  · simp [keysOf]
  · intro m a _ h
    unfold seedApi
    apply foldl_preserve (fun m => (keysOf m).Nodup)
    · exact h
    · intro m' mth _ h'
      exact keysOf_set_nodup _ _ _ h'

theorem methodSelectors_cons (a : Api) (rest : List Api) :
    methodSelectors (a :: rest) = a.methods.map (selectorOf a) ++ methodSelectors rest := by
  simp [methodSelectors]

theorem hasKey_seedMethods (svc : String) (a : Api) :
    ∀ (ms : List ApiMethod) (m : RulesMap) (sel : String),
      hasKey (ms.foldl (fun m mth => alistSet m (selectorOf a mth) (defaultRule svc a mth)) m)
          sel = true
        ↔ (hasKey m sel = true ∨ sel ∈ ms.map (selectorOf a)) := by
  intro ms
  induction ms with
  | nil =>
    intro m sel
    simp
  | cons mth rest ih =>
    intro m sel
    rw [List.foldl_cons, ih, hasKey_set]
    simp only [List.map_cons, List.mem_cons, Bool.or_eq_true, decide_eq_true_eq]
    constructor
    · rintro (⟨h | h⟩ | h)
      · exact Or.inl h
      · exact Or.inr (Or.inl h.symm)
      · exact Or.inr (Or.inr h)
    · rintro (h | h | h)
      · exact Or.inl (Or.inl h)
      · exact Or.inl (Or.inr h.symm)
      · exact Or.inr h

theorem hasKey_seedApis (svc : String) :
    ∀ (as : List Api) (m : RulesMap) (sel : String),
      hasKey (as.foldl (seedApi svc) m) sel = true
        ↔ (hasKey m sel = true ∨ sel ∈ methodSelectors as) := by
  intro as
  induction as with
  | nil =>
    intro m sel
    simp [methodSelectors]
  | cons a rest ih =>
    intro m sel
    rw [List.foldl_cons, ih, methodSelectors_cons]
    have hseed : hasKey (seedApi svc m a) sel = true
        ↔ (hasKey m sel = true ∨ sel ∈ a.methods.map (selectorOf a)) :=
      hasKey_seedMethods svc a a.methods m sel
    rw [hseed]
    simp [List.mem_append, or_assoc]

theorem hasKey_seedRules (svc : String) (apis : List Api) (sel : String) :
    hasKey (seedRules svc apis) sel = true ↔ sel ∈ methodSelectors apis := by
  unfold seedRules
  rw [hasKey_seedApis]
  simp [hasKey]

theorem seedMethods_get_ne (svc : String) (a : Api) :
    ∀ (ms : List ApiMethod) (m : RulesMap) (sel : String),
      sel ∉ ms.map (selectorOf a) →
      alistGet (ms.foldl (fun m mth => alistSet m (selectorOf a mth) (defaultRule svc a mth)) m)
          sel = alistGet m sel := by
  intro ms
  induction ms with
  | nil =>
    intro m sel _
    rfl
  | cons mth rest ih =>
    intro m sel h
    rw [List.map_cons, List.mem_cons] at h
    push_neg at h
    obtain ⟨h1, h2⟩ := h
    rw [List.foldl_cons, ih _ _ h2]
    exact alistGet_set_ne _ _ _ _ (fun he => h1 he.symm)

theorem seedMethods_get (svc : String) (a : Api) :
    ∀ (ms : List ApiMethod) (m : RulesMap) (mth : ApiMethod),
      mth ∈ ms → (ms.map (selectorOf a)).Nodup →
      alistGet (ms.foldl (fun m mth => alistSet m (selectorOf a mth) (defaultRule svc a mth)) m)
          (selectorOf a mth) = some (defaultRule svc a mth) := by
  intro ms
  induction ms with
  | nil =>
    intro m mth h _
    simp at h
  | cons mth0 rest ih =>
    intro m mth hmem hnd
    rw [List.map_cons, List.nodup_cons] at hnd
    obtain ⟨hnotin, hnd⟩ := hnd
    rw [List.foldl_cons]
    rcases List.mem_cons.mp hmem with h | h
    · subst h
      rw [seedMethods_get_ne svc a rest _ _ hnotin]
      exact alistGet_set_self _ _ _
    · exact ih _ mth h hnd

theorem seedApis_get_ne (svc : String) :
    ∀ (as : List Api) (m : RulesMap) (sel : String),
      sel ∉ methodSelectors as →
      alistGet (as.foldl (seedApi svc) m) sel = alistGet m sel := by
  intro as
  induction as with
  | nil =>
    intro m sel _
    rfl
  | cons a rest ih =>
    intro m sel h
    rw [methodSelectors_cons, List.mem_append] at h
    push_neg at h
    obtain ⟨h1, h2⟩ := h
    rw [List.foldl_cons, ih _ _ h2]
    exact seedMethods_get_ne svc a a.methods m sel h1

theorem seedApis_get (svc : String) :
    ∀ (as : List Api) (m : RulesMap) (a : Api) (mth : ApiMethod),
      a ∈ as → mth ∈ a.methods → (methodSelectors as).Nodup →
      alistGet (as.foldl (seedApi svc) m) (selectorOf a mth) = some (defaultRule svc a mth) := by
  intro as
  induction as with
  | nil =>
    intro m a mth h _ _
    simp at h
  | cons a0 rest ih =>
    intro m a mth ha hm hnd
    rw [methodSelectors_cons, List.nodup_append] at hnd
    obtain ⟨hnd1, hnd2, hdisj⟩ := hnd
    rw [List.foldl_cons]
    rcases List.mem_cons.mp ha with h | h
    · subst h
      have hsel : selectorOf a mth ∈ a.methods.map (selectorOf a) :=
        List.mem_map.mpr ⟨mth, hm, rfl⟩
      have hnotin : selectorOf a mth ∉ methodSelectors rest := hdisj hsel
      rw [seedApis_get_ne svc rest _ _ hnotin]
      exact seedMethods_get svc a a.methods m mth hm hnd1
    · exact ih _ a mth h hm hnd2

theorem seedRules_get (svc : String) (apis : List Api) (a : Api) (mth : ApiMethod)
    (ha : a ∈ apis) (hm : mth ∈ a.methods) (hnd : (methodSelectors apis).Nodup) :
    alistGet (seedRules svc apis) (selectorOf a mth) = some (defaultRule svc a mth) := by
  unfold seedRules
  exact seedApis_get svc apis [] a mth ha hm hnd

/-- Among the values of a map whose entries satisfy the key-binding invariant
and whose keys are distinct, exactly one rule carries a present operation
name. -/
theorem countP_values_eq_one :
    ∀ (m : RulesMap) (sel : String),
      (∀ k r, (k, r) ∈ m → r.requires.operationName = k) →
      (keysOf m).Nodup → hasKey m sel = true →
      (m.map Prod.snd).countP (fun r => decide (r.requires.operationName = sel)) = 1 := by
  intro m
  induction m with
  | nil =>
    intro sel _ _ hk
    simp [hasKey] at hk
  | cons p rest ih =>
    intro sel hinv hnd hk
    obtain ⟨k0, r0⟩ := p
    simp only [keysOf, List.map_cons, List.nodup_cons] at hnd
    obtain ⟨hnotin, hnd⟩ := hnd
    have hop0 : r0.requires.operationName = k0 := hinv k0 r0 (List.mem_cons_self _ _)
    rw [hasKey] at hk
    by_cases h0 : k0 = sel
    · subst h0
      rw [List.map_cons, List.countP_cons_of_pos _ _ (by simp [hop0])]
      have hzero :
          (rest.map Prod.snd).countP (fun r => decide (r.requires.operationName = k0)) = 0 := by
        rw [List.countP_eq_zero]
        intro r hr
        obtain ⟨k, hkr⟩ := mem_map_snd hr
        have hop : r.requires.operationName = k := hinv k r (List.mem_cons_of_mem _ hkr)
        simp only [hop, decide_eq_true_eq]
        intro he
        subst he
        exact hnotin (List.mem_map.mpr ⟨(k, r), hkr, rfl⟩)
      rw [hzero]
    · have hk' : hasKey rest sel = true := by
        simp only [Bool.or_eq_true, decide_eq_true_eq] at hk
        rcases hk with h | h
        · exact absurd h h0
        · exact h
      rw [List.map_cons, List.countP_cons_of_neg _ _ (by simp [hop0, h0])]
      exact ih sel (fun k r h => hinv k r (List.mem_cons_of_mem _ h)) hnd hk'

/-! ### Behaviour of the http.rules loop -/

theorem applyHttpRule_some (m : RulesMap) (hr : HttpRule) (m' : RulesMap)
    (h : applyHttpRule m hr = some m') :
    (∀ k, hasKey m' k = hasKey m k) ∧
    (∀ sel, hr.selector ≠ sel → alistGet m' sel = alistGet m sel) ∧
    ((keysOf m).Nodup → (keysOf m').Nodup) ∧
    (∀ svc, RuleBinding svc m → RuleBinding svc m') := by
  unfold applyHttpRule at h
  cases hp : hr.pattern with
  | none =>
    rw [hp] at h
    cases h
    exact ⟨fun _ => rfl, fun _ _ => rfl, id, fun _ => id⟩
  | some p =>
    rw [hp] at h
    cases hg : alistGet m hr.selector with
    | none =>
      rw [hg] at h
      cases h
    | some r =>
      rw [hg] at h
      cases h
      have hk : hasKey m hr.selector = true := hasKey_of_alistGet hg
      refine ⟨?_, ?_, keysOf_set_nodup _ _ _, ?_⟩
      · intro k
        rw [hasKey_set]
        by_cases he : hr.selector = k
        · subst he
          simp [hk]
        · simp [he]
      · intro sel hne
        exact alistGet_set_ne _ _ _ _ hne
      · intro svc hb
        obtain ⟨hop, hsvc⟩ := hb hr.selector r (mem_of_alistGet hg)
        exact ruleBinding_set hb hop hsvc

theorem applyHttpRules_some (l : List HttpRule) :
    ∀ (m m' : RulesMap), applyHttpRules m l = some m' →
      (∀ k, hasKey m' k = hasKey m k) ∧
      (∀ sel, (∀ hr ∈ l, hr.selector ≠ sel) → alistGet m' sel = alistGet m sel) ∧
      ((keysOf m).Nodup → (keysOf m').Nodup) ∧
      (∀ svc, RuleBinding svc m → RuleBinding svc m') := by
  induction l with
  | nil =>
    intro m m' h
    cases h
    exact ⟨fun _ => rfl, fun _ _ => rfl, id, fun _ => id⟩
  | cons hr rest ih =>
    intro m m' h
    rw [applyHttpRules] at h
    cases ha : applyHttpRule m hr with
    | none =>
      rw [ha] at h
      cases h
    | some m1 =>
      rw [ha] at h
      obtain ⟨h1, h2, h3, h4⟩ := applyHttpRule_some m hr m1 ha
      obtain ⟨g1, g2, g3, g4⟩ := ih m1 m' h
      refine ⟨fun k => (g1 k).trans (h1 k), ?_, fun hn => g3 (h3 hn),
        fun svc hb => g4 svc (h4 svc hb)⟩
      intro sel hne
      rw [g2 sel (fun r hrm => hne r (List.mem_cons_of_mem _ hrm)),
        h2 sel (hne hr (List.mem_cons_self _ _))]

theorem applyHttpRules_ok (l : List HttpRule) :
    ∀ (m : RulesMap), (∀ hr ∈ l, hr.pattern = none ∨ hasKey m hr.selector = true) →
      ∃ m', applyHttpRules m l = some m' := by
  induction l with
  | nil =>
    intro m _
    exact ⟨m, rfl⟩
  | cons hr rest ih =>
    intro m hcond
    have hstep : ∃ m1, applyHttpRule m hr = some m1 := by
      unfold applyHttpRule
      cases hp : hr.pattern with
      | none => exact ⟨m, rfl⟩
      | some p =>
        rcases hcond hr (List.mem_cons_self _ _) with h | h
        · rw [hp] at h
          cases h
        · obtain ⟨r, hg⟩ := exists_of_hasKey _ _ h
          rw [hg]
          exact ⟨_, rfl⟩
    obtain ⟨m1, hm1⟩ := hstep
    have hkeys := (applyHttpRule_some m hr m1 hm1).1
    obtain ⟨m', hm'⟩ := ih m1 (fun r hrm => by
      rcases hcond r (List.mem_cons_of_mem _ hrm) with h | h
      · exact Or.inl h
      · refine Or.inr ?_
        rw [hkeys r.selector]
        exact h)
    refine ⟨m', ?_⟩
    rw [applyHttpRules, hm1]
    exact hm'

theorem applyHttpRules_panic (l : List HttpRule) :
    ∀ (m : RulesMap),
      (∃ hr ∈ l, (∃ p, hr.pattern = some p) ∧ hasKey m hr.selector = false) →
      applyHttpRules m l = none := by
  induction l with
  | nil =>
    intro m h
    simp at h
  | cons hr0 rest ih =>
    intro m h
    cases ha : applyHttpRule m hr0 with
    | none => simp [applyHttpRules, ha]
    | some m1 =>
      obtain ⟨hr, hmem, ⟨p, hp⟩, hk⟩ := h
      rcases List.mem_cons.mp hmem with heq | hmem'
      · exfalso
        subst heq
        unfold applyHttpRule at ha
        rw [hp, alistGet_eq_none_of_not_hasKey _ _ hk] at ha
        cases ha
      · rw [applyHttpRules, ha]
        apply ih
        refine ⟨hr, hmem', ⟨p, hp⟩, ?_⟩
        rw [(applyHttpRule_some m hr0 m1 ha).1]
        exact hk

/-- After a successful http.rules pass with pairwise-distinct selectors, the
entry named by a binding carries exactly that binding's verb and template. -/
theorem applyHttpRules_get (l : List HttpRule) :
    ∀ (m m' : RulesMap), applyHttpRules m l = some m' →
      (l.map HttpRule.selector).Nodup →
      ∀ hr ∈ l, ∀ p, hr.pattern = some p →
        ∃ r, alistGet m' hr.selector = some r ∧ r.pattern = verbPattern p := by
  induction l with
  | nil =>
    intro m m' _ _ hr hmem
    simp at hmem
  | cons hr0 rest ih =>
    intro m m' h hnd hr hmem p hp
    rw [List.map_cons, List.nodup_cons] at hnd
    obtain ⟨hnotin, hnd⟩ := hnd
    rw [applyHttpRules] at h
    cases ha : applyHttpRule m hr0 with
    | none =>
      rw [ha] at h
      cases h
    | some m1 =>
      rw [ha] at h
      rcases List.mem_cons.mp hmem with heq | hmem'
      · subst heq
        unfold applyHttpRule at ha
        rw [hp] at ha
        cases hg : alistGet m hr.selector with
        | none =>
          rw [hg] at ha
          cases ha
        | some r0 =>
          rw [hg, Option.some.injEq] at ha
          subst ha
          have hpres : alistGet m' hr.selector
              = alistGet (alistSet m hr.selector { r0 with pattern := verbPattern p })
                  hr.selector := by
            refine (applyHttpRules_some rest _ m' h).2.1 hr.selector ?_
            intro r' hr' heq'
            exact hnotin (heq' ▸ List.mem_map.mpr ⟨r', hr', rfl⟩)
          rw [hpres, alistGet_set_self]
          exact ⟨_, rfl, rfl⟩
      · exact ih m1 m' h hnd hr hmem' p hp

/-! ### Behaviour of the usage.rules loop -/

theorem applyUsageRule_some (m : RulesMap) (u : UsageRule) (m' : RulesMap)
    (h : applyUsageRule m u = some m') :
    (∀ k, hasKey m' k = hasKey m k) ∧
    (∀ sel, u.selector ≠ sel → alistGet m' sel = alistGet m sel) ∧
    (∀ sel, (alistGet m' sel).map ServiceControlRule.pattern
      = (alistGet m sel).map ServiceControlRule.pattern) ∧
    ((keysOf m).Nodup → (keysOf m').Nodup) ∧
    (∀ svc, RuleBinding svc m → RuleBinding svc m') := by
  unfold applyUsageRule at h
  cases hg : alistGet m u.selector with
  | none =>
    rw [hg] at h
    cases h
  | some r =>
    rw [hg] at h
    cases h
    have hk : hasKey m u.selector = true := hasKey_of_alistGet hg
    refine ⟨?_, ?_, ?_, keysOf_set_nodup _ _ _, ?_⟩
    · intro k
      rw [hasKey_set]
      by_cases he : u.selector = k
      · subst he
        simp [hk]
      · simp [he]
    · intro sel hne
      exact alistGet_set_ne _ _ _ _ hne
    · intro sel
      by_cases he : u.selector = sel
      · subst he
        rw [alistGet_set_self, hg]
        rfl
      · rw [alistGet_set_ne _ _ _ _ he]
    · intro svc hb
      obtain ⟨hop, hsvc⟩ := hb u.selector r (mem_of_alistGet hg)
      exact ruleBinding_set hb hop hsvc

theorem applyUsageRules_some (l : List UsageRule) :
    ∀ (m m' : RulesMap), applyUsageRules m l = some m' →
      (∀ k, hasKey m' k = hasKey m k) ∧
      (∀ sel, (∀ u ∈ l, u.selector ≠ sel) → alistGet m' sel = alistGet m sel) ∧
      (∀ sel, (alistGet m' sel).map ServiceControlRule.pattern
        = (alistGet m sel).map ServiceControlRule.pattern) ∧
      ((keysOf m).Nodup → (keysOf m').Nodup) ∧
      (∀ svc, RuleBinding svc m → RuleBinding svc m') := by
  induction l with
  | nil =>
    intro m m' h
    cases h
    exact ⟨fun _ => rfl, fun _ _ => rfl, fun _ => rfl, id, fun _ => id⟩
  | cons u rest ih =>
    intro m m' h
    rw [applyUsageRules] at h
    cases ha : applyUsageRule m u with
    | none =>
      rw [ha] at h
      cases h
    | some m1 =>
      rw [ha] at h
      obtain ⟨h1, h2, h3, h4, h5⟩ := applyUsageRule_some m u m1 ha
      obtain ⟨g1, g2, g3, g4, g5⟩ := ih m1 m' h
      refine ⟨fun k => (g1 k).trans (h1 k), ?_, fun sel => (g3 sel).trans (h3 sel),
        fun hn => g4 (h4 hn), fun svc hb => g5 svc (h5 svc hb)⟩
      intro sel hne
      rw [g2 sel (fun r hrm => hne r (List.mem_cons_of_mem _ hrm)),
        h2 sel (hne u (List.mem_cons_self _ _))]

theorem applyUsageRules_ok (l : List UsageRule) :
    ∀ (m : RulesMap), (∀ u ∈ l, hasKey m u.selector = true) →
      ∃ m', applyUsageRules m l = some m' := by
  induction l with
  | nil =>
    intro m _
    exact ⟨m, rfl⟩
  | cons u rest ih =>
    intro m hcond
    obtain ⟨r, hg⟩ := exists_of_hasKey _ _ (hcond u (List.mem_cons_self _ _))
    have hm1 : applyUsageRule m u
        = some (alistSet m u.selector
            { r with requires := { r.requires with apiKey := some (apiKeyRequirementFor u) } }) := by
      unfold applyUsageRule
      rw [hg]
    obtain ⟨h1, _, _, _, _⟩ := applyUsageRule_some m u _ hm1
    obtain ⟨m', hm'⟩ := ih _ (fun u' hu' => by
      rw [h1 u'.selector]
      exact hcond u' (List.mem_cons_of_mem _ hu'))
    refine ⟨m', ?_⟩
    rw [applyUsageRules, hm1]
    exact hm'

theorem applyUsageRules_panic (l : List UsageRule) :
    ∀ (m : RulesMap), (∃ u ∈ l, hasKey m u.selector = false) →
      applyUsageRules m l = none := by
  induction l with
  | nil =>
    intro m h
    simp at h
  | cons u0 rest ih =>
    intro m h
    cases ha : applyUsageRule m u0 with
    | none => simp [applyUsageRules, ha]
    | some m1 =>
      obtain ⟨u, hmem, hk⟩ := h
      rcases List.mem_cons.mp hmem with heq | hmem'
      · exfalso
        subst heq
        unfold applyUsageRule at ha
        rw [alistGet_eq_none_of_not_hasKey _ _ hk] at ha
        cases ha
      · rw [applyUsageRules, ha]
        apply ih
        refine ⟨u, hmem', ?_⟩
        rw [(applyUsageRule_some m u0 m1 ha).1]
        exact hk

/-- After a successful usage.rules pass with pairwise-distinct selectors, the
entry named by a usage rule carries exactly that rule's API-key requirement. -/
theorem applyUsageRules_get (l : List UsageRule) :
    ∀ (m m' : RulesMap), applyUsageRules m l = some m' →
      (l.map UsageRule.selector).Nodup →
      ∀ u ∈ l, ∃ r, alistGet m' u.selector = some r ∧
        r.requires.apiKey = some (apiKeyRequirementFor u) := by
  induction l with
  | nil =>
    intro m m' _ _ u hmem
    simp at hmem
  | cons u0 rest ih =>
    intro m m' h hnd u hmem
    rw [List.map_cons, List.nodup_cons] at hnd
    obtain ⟨hnotin, hnd⟩ := hnd
    rw [applyUsageRules] at h
    cases ha : applyUsageRule m u0 with
    | none =>
      rw [ha] at h
      cases h
    | some m1 =>
      rw [ha] at h
      rcases List.mem_cons.mp hmem with heq | hmem'
      · subst heq
        unfold applyUsageRule at ha
        cases hg : alistGet m u.selector with
        | none =>
          rw [hg] at ha
          cases ha
        | some r0 =>
          rw [hg, Option.some.injEq] at ha
          subst ha
          have hpres : alistGet m' u.selector
              = alistGet
                  (alistSet m u.selector
                    { r0 with requires :=
                        { r0.requires with apiKey := some (apiKeyRequirementFor u) } })
                  u.selector := by
            refine (applyUsageRules_some rest _ m' h).2.1 u.selector ?_
            intro u' hu' heq'
            exact hnotin (heq' ▸ List.mem_map.mpr ⟨u', hu', rfl⟩)
          rw [hpres, alistGet_set_self]
          exact ⟨_, rfl, rfl⟩
      · exact ih m1 m' h hnd u hmem'

/-! ### A successful run of makeServiceControlFilter -/

/-- When the service name and control environment are non-empty and every
http/usage selector matches some method, the filter is emitted; the final map
keeps the seeded key set, distinct keys, and the key-binding invariant. -/
theorem scFilter_run (cfg : Service)
    (hname : cfg.name ≠ "") (henv : cfg.control.environment ≠ "")
    (hhttp : ∀ hr ∈ cfg.http.rules, hr.selector ∈ methodSelectors cfg.apis)
    (husage : ∀ u ∈ cfg.usage.rules, u.selector ∈ methodSelectors cfg.apis) :
    ∃ m1 m2,
      applyHttpRules (seedRules cfg.name cfg.apis) cfg.http.rules = some m1 ∧
      applyUsageRules m1 cfg.usage.rules = some m2 ∧
      scRulesOf (makeServiceControlFilter cfg) = m2.map Prod.snd ∧
      (∃ f, makeServiceControlFilter cfg = SCOutcome.emit f ∧ f.rules = m2.map Prod.snd) ∧
      (∀ k, hasKey m2 k = true ↔ k ∈ methodSelectors cfg.apis) ∧
      (keysOf m2).Nodup ∧
      RuleBinding cfg.name m2 := by
  have hcond : ¬(cfg.name = "" ∨ cfg.control.environment = "") := by
    rintro (h | h)
    · exact hname h
    · exact henv h
  obtain ⟨m1, hm1⟩ := applyHttpRules_ok cfg.http.rules (seedRules cfg.name cfg.apis)
    (fun hr hmem => Or.inr ((hasKey_seedRules _ _ _).mpr (hhttp hr hmem)))
  obtain ⟨hk1, _, hnd1, hb1⟩ := applyHttpRules_some cfg.http.rules _ m1 hm1
  obtain ⟨m2, hm2⟩ := applyUsageRules_ok cfg.usage.rules m1
    (fun u hmem => by
      rw [hk1 u.selector]
      exact (hasKey_seedRules _ _ _).mpr (husage u hmem))
  obtain ⟨hk2, _, _, hnd2, hb2⟩ := applyUsageRules_some cfg.usage.rules m1 m2 hm2
  have hemit : makeServiceControlFilter cfg
      = SCOutcome.emit
          { services :=
              [{ serviceName := cfg.name
                 tokenUriVal := tokenUri
                 serviceControlUriVal := serviceControlUri }]
            serviceName := cfg.name
            serviceControlUriVal := serviceControlUri
            rules := m2.map Prod.snd } := by
    simp only [makeServiceControlFilter, hm1, hm2]
    rw [if_neg hcond]
  refine ⟨m1, m2, hm1, hm2, ?_, ⟨_, hemit, rfl⟩, ?_, ?_, ?_⟩
  · rw [hemit]
    rfl
  · intro k
    rw [hk2 k, hk1 k]
    exact hasKey_seedRules _ _ _
  · exact hnd2 (hnd1 (keysOf_seedRules_nodup _ _))
  · exact hb2 _ (hb1 _ (ruleBinding_seedRules _ _))

/-! ### Claim theorems: service-control filter -/

/-- Claim C1: for every service document with non-empty service name and
control environment (and well-formed cross references: distinct method
selectors and http/usage selectors that match some method), the emitted
service-control filter contains exactly one rule per API method, keyed by
selector, with operation name `<api>.<method>`, the document's service name,
and — when no http.rules entry names that selector — the default pattern
`POST /<api>/<method>`. -/
theorem C1_service_control_rule_set (cfg : Service)
    (hname : cfg.name ≠ "") (henv : cfg.control.environment ≠ "")
    (hnd : (methodSelectors cfg.apis).Nodup)
    (hhttp : ∀ hr ∈ cfg.http.rules, hr.selector ∈ methodSelectors cfg.apis)
    (husage : ∀ u ∈ cfg.usage.rules, u.selector ∈ methodSelectors cfg.apis) :
    (∃ f, makeServiceControlFilter cfg = SCOutcome.emit f) ∧
    ∀ a ∈ cfg.apis, ∀ mth ∈ a.methods,
      ((scRulesOf (makeServiceControlFilter cfg)).countP
          (fun r => decide (r.requires.operationName = selectorOf a mth)) = 1) ∧
      ∀ r ∈ scRulesOf (makeServiceControlFilter cfg),
        r.requires.operationName = selectorOf a mth →
          r.requires.serviceName = cfg.name ∧
          ((∀ hr ∈ cfg.http.rules, hr.selector ≠ selectorOf a mth) →
            r.pattern = { uriTemplate := "/" ++ a.name ++ "/" ++ mth.name
                          httpMethod := "POST" }) := by
  obtain ⟨m1, m2, hm1, hm2, hrules, ⟨f, hemit, _⟩, hkeys, hnd2, hbind⟩ :=
    scFilter_run cfg hname henv hhttp husage
  refine ⟨⟨f, hemit⟩, ?_⟩
  intro a ha mth hm
  have hselmem : selectorOf a mth ∈ methodSelectors cfg.apis :=
    List.mem_flatMap.mpr ⟨a, ha, List.mem_map.mpr ⟨mth, hm, rfl⟩⟩
  constructor
  · rw [hrules]
    exact countP_values_eq_one m2 _ (fun k r h => (hbind k r h).1) hnd2
      ((hkeys _).mpr hselmem)
  · intro r hr hop
    rw [hrules] at hr
    obtain ⟨k, hkr⟩ := mem_map_snd hr
    obtain ⟨hbop, hbsvc⟩ := hbind k r hkr
    have hksel : k = selectorOf a mth := by rw [← hbop, hop]
    rw [hksel] at hkr
    refine ⟨hbsvc, ?_⟩
    intro hne
    have hget2 : alistGet m2 (selectorOf a mth) = some r :=
      alistGet_of_mem_nodup m2 _ r hnd2 hkr
    have hpat : (alistGet m2 (selectorOf a mth)).map ServiceControlRule.pattern
        = (alistGet m1 (selectorOf a mth)).map ServiceControlRule.pattern :=
      (applyUsageRules_some cfg.usage.rules m1 m2 hm2).2.2.1 _
    have hget1 : alistGet m1 (selectorOf a mth)
        = alistGet (seedRules cfg.name cfg.apis) (selectorOf a mth) :=
      (applyHttpRules_some cfg.http.rules _ m1 hm1).2.1 _ hne
    have hseed : alistGet (seedRules cfg.name cfg.apis) (selectorOf a mth)
        = some (defaultRule cfg.name a mth) :=
      seedRules_get cfg.name cfg.apis a mth ha hm hnd
    rw [hget2, hget1, hseed] at hpat
    have : r.pattern = (defaultRule cfg.name a mth).pattern := by
      simpa using hpat
    rw [this]
    rfl

/-- Claim C5: every usage rule attaches to the matching service-control rule
an API-key requirement with `allow_without_api_key` equal to the rule's
`allow_unregistered_calls` and key sources `[query:key, header:x-api-key]`,
in that order. -/
theorem C5_usage_rules_api_key (cfg : Service)
    (hname : cfg.name ≠ "") (henv : cfg.control.environment ≠ "")
    (hhttp : ∀ hr ∈ cfg.http.rules, hr.selector ∈ methodSelectors cfg.apis)
    (husage : ∀ u ∈ cfg.usage.rules, u.selector ∈ methodSelectors cfg.apis)
    (hund : (cfg.usage.rules.map UsageRule.selector).Nodup) :
    (∃ f, makeServiceControlFilter cfg = SCOutcome.emit f) ∧
    ∀ u ∈ cfg.usage.rules, ∀ r ∈ scRulesOf (makeServiceControlFilter cfg),
      r.requires.operationName = u.selector →
        r.requires.apiKey
          = some { allowWithoutApiKey := u.allowUnregisteredCalls
                   apiKeys := [APIKey.query "key", APIKey.header "x-api-key"] } := by
  obtain ⟨m1, m2, hm1, hm2, hrules, ⟨f, hemit, _⟩, hkeys, hnd2, hbind⟩ :=
    scFilter_run cfg hname henv hhttp husage
  refine ⟨⟨f, hemit⟩, ?_⟩
  intro u hu r hr hop
  obtain ⟨r0, hget, hkey⟩ := applyUsageRules_get cfg.usage.rules m1 m2 hm2 hund u hu
  rw [hrules] at hr
  obtain ⟨k, hkr⟩ := mem_map_snd hr
  have hksel : k = u.selector := by rw [← (hbind k r hkr).1, hop]
  rw [hksel] at hkr
  have hget2 : alistGet m2 u.selector = some r := alistGet_of_mem_nodup m2 _ r hnd2 hkr
  rw [hget2, Option.some.injEq] at hget
  rw [← hget] at hkey
  exact hkey

/-- Claim C6: every http.rules entry with a recognised verb pattern replaces
the matching rule's pattern with exactly that binding's (verb, uri_template)
pair, the template string preserved verbatim. -/
theorem C6_http_rules_pattern (cfg : Service)
    (hname : cfg.name ≠ "") (henv : cfg.control.environment ≠ "")
    (hhttp : ∀ hr ∈ cfg.http.rules, hr.selector ∈ methodSelectors cfg.apis)
    (husage : ∀ u ∈ cfg.usage.rules, u.selector ∈ methodSelectors cfg.apis)
    (hhnd : (cfg.http.rules.map HttpRule.selector).Nodup) :
    (∃ f, makeServiceControlFilter cfg = SCOutcome.emit f) ∧
    ∀ hr ∈ cfg.http.rules, ∀ p, hr.pattern = some p →
      ∀ r ∈ scRulesOf (makeServiceControlFilter cfg),
        r.requires.operationName = hr.selector → r.pattern = verbPattern p := by
  obtain ⟨m1, m2, hm1, hm2, hrules, ⟨f, hemit, _⟩, hkeys, hnd2, hbind⟩ :=
    scFilter_run cfg hname henv hhttp husage
  refine ⟨⟨f, hemit⟩, ?_⟩
  intro hr hmem p hp r hrv hop
  obtain ⟨r1, hget1, hpat1⟩ := applyHttpRules_get cfg.http.rules _ m1 hm1 hhnd hr hmem p hp
  rw [hrules] at hrv
  obtain ⟨k, hkr⟩ := mem_map_snd hrv
  have hksel : k = hr.selector := by rw [← (hbind k r hkr).1, hop]
  rw [hksel] at hkr
  have hget2 : alistGet m2 hr.selector = some r := alistGet_of_mem_nodup m2 _ r hnd2 hkr
  have hpat : (alistGet m2 hr.selector).map ServiceControlRule.pattern
      = (alistGet m1 hr.selector).map ServiceControlRule.pattern :=
    (applyUsageRules_some cfg.usage.rules m1 m2 hm2).2.2.1 _
  rw [hget2, hget1] at hpat
  have : r.pattern = r1.pattern := by simpa using hpat
  rw [this, hpat1]

/-- Claim C9 (amended): an http.rules or usage.rules entry whose selector
matches no API method makes makeServiceControlFilter dereference the nil map
lookup and panic, PROVIDED the entry actually dereferences: a usage entry
always does, an http entry does so exactly when its pattern is one of the
five recognised verb variants (an entry with no recognised pattern falls
through the type switch untouched).  There is no error return. -/
theorem C9_unmatched_selector_panics (cfg : Service)
    (hname : cfg.name ≠ "") (henv : cfg.control.environment ≠ "")
    (h : (∃ hr ∈ cfg.http.rules, (∃ p, hr.pattern = some p) ∧
            hr.selector ∉ methodSelectors cfg.apis) ∨
      ((∀ hr ∈ cfg.http.rules, hr.pattern = none ∨ hr.selector ∈ methodSelectors cfg.apis) ∧
        ∃ u ∈ cfg.usage.rules, u.selector ∉ methodSelectors cfg.apis)) :
    makeServiceControlFilter cfg = SCOutcome.panicked := by
  have hcond : ¬(cfg.name = "" ∨ cfg.control.environment = "") := by
    rintro (hx | hx)
    · exact hname hx
    · exact henv hx
  rcases h with ⟨hr, hmem, hp, hnot⟩ | ⟨hsafe, u, hmem, hnot⟩
  · have hnone : applyHttpRules (seedRules cfg.name cfg.apis) cfg.http.rules = none :=
      applyHttpRules_panic _ _
        ⟨hr, hmem, hp,
          Bool.eq_false_iff.mpr (fun htrue => hnot ((hasKey_seedRules _ _ _).mp htrue))⟩
    simp only [makeServiceControlFilter, hnone]
    rw [if_neg hcond]
  · obtain ⟨m1, hm1⟩ := applyHttpRules_ok cfg.http.rules (seedRules cfg.name cfg.apis)
      (fun hr' hmem' => by
        rcases hsafe hr' hmem' with hx | hx
        · exact Or.inl hx
        · exact Or.inr ((hasKey_seedRules _ _ _).mpr hx))
    have hk1 := (applyHttpRules_some cfg.http.rules _ m1 hm1).1
    have hnone : applyUsageRules m1 cfg.usage.rules = none :=
      applyUsageRules_panic _ _
        ⟨u, hmem, by
          rw [hk1 u.selector]
          exact Bool.eq_false_iff.mpr
            (fun htrue => hnot ((hasKey_seedRules _ _ _).mp htrue))⟩
    simp only [makeServiceControlFilter, hm1, hnone]
    rw [if_neg hcond]

/-! ### Concrete documents for witnesses and counterexamples -/

def exM1 : ApiMethod := { name := "m1" }

def exM2 : ApiMethod := { name := "m2" }

def exApi : Api :=
  { name := "a", methods := [exM1, exM2], sourceContext := { fileName := "a.proto" } }

def exUsage : UsageRule := { selector := "a.m2", allowUnregisteredCalls := true }

def exHttpRule : HttpRule := { selector := "a.m1", pattern := some (HttpPattern.get "/pets/{id}") }

def exService : Service :=
  { name := "svc"
    apis := [exApi]
    sourceInfo := { sourceFiles := [] }
    authentication := { providers := [], rules := [] }
    http := { rules := [exHttpRule] }
    usage := { rules := [exUsage] }
    control := { environment := "prod" } }

/-- The service-control rule that exService's method m2 ends up with. -/
def exRuleM2 : ServiceControlRule :=
  { requires :=
      { serviceName := "svc"
        operationName := "a.m2"
        apiKey := some { allowWithoutApiKey := true
                         apiKeys := [APIKey.query "key", APIKey.header "x-api-key"] } }
    pattern := { uriTemplate := "/a/m2", httpMethod := "POST" } }

/-- The service-control rule that exService's method m1 ends up with. -/
def exRuleM1 : ServiceControlRule :=
  { requires := { serviceName := "svc", operationName := "a.m1", apiKey := none }
    pattern := { uriTemplate := "/pets/{id}", httpMethod := "GET" } }

/-- Witness for C1: at a concrete document the theorem applies and yields the
exactly-one-rule count for method m2. -/
theorem C1_service_control_rule_set_witness :
    (scRulesOf (makeServiceControlFilter exService)).countP
      (fun r => decide (r.requires.operationName = selectorOf exApi exM2)) = 1 :=
  ((C1_service_control_rule_set exService (by decide) (by decide) (by decide)
      (by decide) (by decide)).2 exApi (by decide) exM2 (by decide)).1

/-- Witness for C5 at a concrete document. -/
theorem C5_usage_rules_api_key_witness :
    exRuleM2.requires.apiKey
      = some { allowWithoutApiKey := true
               apiKeys := [APIKey.query "key", APIKey.header "x-api-key"] } :=
  (C5_usage_rules_api_key exService (by decide) (by decide) (by decide) (by decide)
      (by decide)).2 exUsage (by decide) exRuleM2 (by decide) (by decide)

/-- Witness for C6 at a concrete document. -/
theorem C6_http_rules_pattern_witness :
    exRuleM1.pattern = verbPattern (HttpPattern.get "/pets/{id}") :=
  (C6_http_rules_pattern exService (by decide) (by decide) (by decide) (by decide)
      (by decide)).2 exHttpRule (by decide) (HttpPattern.get "/pets/{id}") rfl
    exRuleM1 (by decide) (by decide)

/-- A document with an http.rules entry whose selector matches nothing and
whose pattern oneof is unset. -/
def c9Service : Service :=
  { name := "svc"
    apis := [exApi]
    sourceInfo := { sourceFiles := [] }
    authentication := { providers := [], rules := [] }
    http := { rules := [{ selector := "bogus.x", pattern := none }] }
    usage := { rules := [] }
    control := { environment := "prod" } }

/-- Claim C9 counterexample: c9Service has an http.rules entry whose selector
matches no API method, yet makeServiceControlFilter does not crash — it emits
a filter — because the unset pattern matches no case of the type switch and
the nil rule pointer is never dereferenced. -/
theorem C9_counterexample :
    (∃ hr ∈ c9Service.http.rules, hr.selector ∉ methodSelectors c9Service.apis) ∧
    makeServiceControlFilter c9Service ≠ SCOutcome.panicked ∧
    scRulesOf (makeServiceControlFilter c9Service) ≠ [] := by
  refine ⟨?_, ?_, ?_⟩ <;> decide

/-- A document whose usage.rules entry has a selector matching no method. -/
def c9bService : Service :=
  { name := "svc"
    apis := [exApi]
    sourceInfo := { sourceFiles := [] }
    authentication := { providers := [], rules := [] }
    http := { rules := [] }
    usage := { rules := [{ selector := "nope.x", allowUnregisteredCalls := false }] }
    control := { environment := "prod" } }

/-- Witness for the amended C9: a usage rule with an unmatched selector makes
the builder panic. -/
theorem C9_unmatched_selector_panics_witness :
    makeServiceControlFilter c9bService = SCOutcome.panicked :=
  C9_unmatched_selector_panics c9bService (by decide) (by decide)
    (Or.inr ⟨by decide, by decide⟩)

/-! ### The JWT-authn filter builder (`makeJwtAuthnFilter`)

JWKS fetching is an injected oracle `fetch : String → Except String String`
mapping a JWKS URI to the response body or an error, standing for the HTTP
round trip of `fetchJwk`. -/

/-- Go's `strings.Split` for a one-character separator (the source only
splits on `"."` and `","`), written by structural recursion over the
character list so that it evaluates by kernel reduction. -/
def splitChars (sep : Char) : List Char → List (List Char)
  | [] => [[]]
  | c :: rest =>
    if c = sep then [] :: splitChars sep rest
    else
      match splitChars sep rest with
      | [] => [[c]]
      | h :: t => (c :: h) :: t

def splitOnChar (s : String) (sep : Char) : List String :=
  (splitChars sep s.data).map String.mk

structure JwtProvider where
  issuer : String
  localJwks : String
  audiences : List String
deriving DecidableEq

def mkJwtProvider (p : AuthProviderCfg) (jwk : String) : JwtProvider :=
  { issuer := p.issuer
    localJwks := jwk
    audiences := if p.audiences = "" then [] else splitOnChar p.audiences ',' }

/-- The provider-collection loop: on the first fetch error it stops (`break`
in the Go source), keeping only the providers accumulated so far; otherwise
it inserts the provider into the map keyed by its id. -/
def collectProviders (fetch : String → Except String String)
    (acc : AList JwtProvider) : List AuthProviderCfg → AList JwtProvider
  | [] => acc
  | p :: rest =>
    match fetch p.jwksUri with
    | .error _ => acc
    | .ok jwk => collectProviders fetch (alistSet acc p.id (mkJwtProvider p jwk)) rest

inductive JwtRequirement where
  | providerName (name : String)
  | providerAndAudiences (name : String) (audiences : List String)
  | requiresAny (reqs : List JwtRequirement)

def mkRequirement (r : AuthRequirementCfg) : JwtRequirement :=
  if r.audiences = "" then .providerName r.providerId
  else .providerAndAudiences r.providerId (splitOnChar r.audiences ',')

/-- The requirement loop of one authentication rule: `requires` starts as an
empty `RequiresAny`; a single-requirement rule replaces it by the lone
requirement, otherwise each requirement is appended to the `RequiresAny`
list.  (The non-`requiresAny` fall-through of the append branch is
unreachable: the accumulator is only ever replaced when the list has length
one, in which case the branch is not taken.) -/
def buildRequires (reqs : List AuthRequirementCfg) : JwtRequirement :=
  reqs.foldl
    (fun acc r =>
      if reqs.length = 1 then mkRequirement r
      else
        match acc with
        | .requiresAny l => .requiresAny (l ++ [mkRequirement r])
        | acc' => acc')
    (.requiresAny [])

/-- `strings.Split(selector, ".")` is never empty, so `m[len(m)-1]` is its
last element. -/
def lastSegment (s : String) : String := (splitOnChar s '.').getLastD ""

structure RequirementRule where
  matchPrefixVal : String
  requires : JwtRequirement

def mkRequirementRule (apiName : String) (rule : AuthRuleCfg) : RequirementRule :=
  { matchPrefixVal := "/" ++ apiName ++ "/" ++ lastSegment rule.selector
    requires := buildRequires rule.requirements }

/-- The rule loop: a rule with zero requirements executes `break`, ending the
loop — it and every later rule are dropped. -/
def buildJwtRules (apiName : String) : List AuthRuleCfg → List RequirementRule
  | [] => []
  | rule :: rest =>
    if rule.requirements = [] then []
    else mkRequirementRule apiName rule :: buildJwtRules apiName rest

structure JwtFilter where
  providers : AList JwtProvider
  rules : List RequirementRule

def makeJwtAuthnFilter (fetch : String → Except String String)
    (cfg : Service) (endpointApi : Api) : Option JwtFilter :=
  if cfg.authentication.providers = [] then none
  else if collectProviders fetch [] cfg.authentication.providers = [] then none
  else
    some { providers := collectProviders fetch [] cfg.authentication.providers
           rules := buildJwtRules endpointApi.name cfg.authentication.rules }

/-! ### Lemmas about the JWT builder -/

theorem buildJwtRules_eq (apiName : String) :
    ∀ rules : List AuthRuleCfg,
      buildJwtRules apiName rules
        = (rules.takeWhile (fun r => !r.requirements.isEmpty)).map (mkRequirementRule apiName) := by
  intro rules
  induction rules with
  | nil => rfl
  | cons rule rest ih =>
    by_cases h : rule.requirements = []
    · rw [buildJwtRules, if_pos h]
      rw [List.takeWhile_cons]
      simp [h]
    · rw [buildJwtRules, if_neg h]
      have hbe : rule.requirements.isEmpty = false := by
        simp [List.isEmpty_iff, h]
      rw [List.takeWhile_cons, hbe]
      simp [ih]

theorem buildRequires_single (r : AuthRequirementCfg) :
    buildRequires [r] = mkRequirement r := by
  simp [buildRequires]

theorem buildRequires_go (reqs : List AuthRequirementCfg) (hne : reqs.length ≠ 1) :
    ∀ (l : List AuthRequirementCfg) (acc : List JwtRequirement),
      l.foldl
          (fun acc r =>
            if reqs.length = 1 then mkRequirement r
            else
              match acc with
              | .requiresAny l => .requiresAny (l ++ [mkRequirement r])
              | acc' => acc')
          (.requiresAny acc)
        = .requiresAny (acc ++ l.map mkRequirement) := by
  intro l
  induction l with
  | nil =>
    intro acc
    simp
  | cons r rest ih =>
    intro acc
    rw [List.foldl_cons, if_neg hne]
    rw [ih (acc ++ [mkRequirement r])]
    simp

theorem buildRequires_multi (reqs : List AuthRequirementCfg) (h : 2 ≤ reqs.length) :
    buildRequires reqs = .requiresAny (reqs.map mkRequirement) := by
  have hne : reqs.length ≠ 1 := by omega
  unfold buildRequires
  have := buildRequires_go reqs hne reqs []
  simpa using this

/-- The remaining-providers abandonment: once one provider's fetch fails, the
collection result is exactly what the loop had before that provider — the
providers after it are never consulted. -/
theorem collectProviders_append_bad (fetch : String → Except String String)
    (bad : AuthProviderCfg) (hbad : ∀ s, fetch bad.jwksUri ≠ Except.ok s) :
    ∀ (good : List AuthProviderCfg) (acc : AList JwtProvider) (rest : List AuthProviderCfg),
      collectProviders fetch acc (good ++ bad :: rest) = collectProviders fetch acc good := by
  intro good
  induction good with
  | nil =>
    intro acc rest
    rw [List.nil_append]
    cases hf : fetch bad.jwksUri with
    | error e => simp [collectProviders, hf]
    | ok s => exact absurd hf (hbad s)
  | cons p tail ih =>
    intro acc rest
    rw [List.cons_append]
    cases hf : fetch p.jwksUri with
    | error e => simp [collectProviders, hf]
    | ok jwk =>
      simp only [collectProviders, hf]
      exact ih _ rest

/-! ### Claim theorems: JWT-authn filter -/

def c4Api : Api := { name := "first", methods := [], sourceContext := { fileName := "x.proto" } }

def c4Fetch : String → Except String String := fun _ => Except.ok "jwks-body"

def c4Service : Service :=
  { name := "svc"
    apis := [c4Api]
    sourceInfo := { sourceFiles := [] }
    authentication :=
      { providers := [{ id := "p", issuer := "iss", jwksUri := "u", audiences := "" }]
        rules :=
          [{ selector := "first.zero", requirements := [] },
           { selector := "first.one",
             requirements := [{ providerId := "p", audiences := "" }] }] }
    http := { rules := [] }
    usage := { rules := [] }
    control := { environment := "prod" } }

/-- Claim C4 counterexample: in a document whose authentication has two rules
— the first with zero requirements, the second with exactly one — the code
emits NO requirement rule at all: the zero-requirement rule executes `break`,
so rules after it are not processed, contradicting the claim that such a rule
is merely skipped. -/
theorem C4_counterexample :
    c4Service.authentication.rules.length = 2 ∧
    (c4Service.authentication.rules.getLastD { selector := "", requirements := [] }
      ).requirements.length = 1 ∧
    (makeJwtAuthnFilter c4Fetch c4Service c4Api).map JwtFilter.rules = some [] :=
  ⟨rfl, rfl, rfl⟩

/-- Unfolding a successfully built JWT filter. -/
theorem makeJwtAuthnFilter_some (fetch : String → Except String String)
    (cfg : Service) (a : Api) (f : JwtFilter)
    (h : makeJwtAuthnFilter fetch cfg a = some f) :
    f.rules = buildJwtRules a.name cfg.authentication.rules ∧
    f.providers = collectProviders fetch [] cfg.authentication.providers := by
  rw [makeJwtAuthnFilter] at h
  by_cases h1 : cfg.authentication.providers = []
  · rw [if_pos h1] at h
    cases h
  · rw [if_neg h1] at h
    by_cases h2 : collectProviders fetch [] cfg.authentication.providers = []
    · rw [if_pos h2] at h
      cases h
    · rw [if_neg h2, Option.some.injEq] at h
      rw [← h]
      exact ⟨rfl, rfl⟩

/-- Claim C4 (amended): a rule with zero requirements does not merely get
skipped — it ends the loop, so the emitted requirement rules are exactly
those of the longest PREFIX of authentication rules with nonempty
requirements.  On that prefix the claim's per-rule shape holds: exactly one
requirement is emitted directly, two or more become RequiresAny over all of
them. -/
theorem C4_requirement_rules (fetch : String → Except String String)
    (cfg : Service) (a : Api) (f : JwtFilter)
    (h : makeJwtAuthnFilter fetch cfg a = some f) :
    f.rules = (cfg.authentication.rules.takeWhile (fun r => !r.requirements.isEmpty)).map
        (mkRequirementRule a.name) ∧
    (∀ rule ∈ cfg.authentication.rules, ∀ r0, rule.requirements = [r0] →
      buildRequires rule.requirements = mkRequirement r0) ∧
    (∀ rule ∈ cfg.authentication.rules, 2 ≤ rule.requirements.length →
      buildRequires rule.requirements
        = JwtRequirement.requiresAny (rule.requirements.map mkRequirement)) := by
  refine ⟨?_, ?_, ?_⟩
  · rw [(makeJwtAuthnFilter_some fetch cfg a f h).1]
    exact buildJwtRules_eq a.name cfg.authentication.rules
  · intro rule _ r0 hr0
    rw [hr0]
    exact buildRequires_single r0
  · intro rule _ hlen
    exact buildRequires_multi _ hlen

def c4wFetch : String → Except String String := fun _ => Except.ok "jwks-body"

def c4wApi : Api := { name := "first", methods := [], sourceContext := { fileName := "x.proto" } }

def c4wService : Service :=
  { name := "svc"
    apis := [c4wApi]
    sourceInfo := { sourceFiles := [] }
    authentication :=
      { providers := [{ id := "p", issuer := "iss", jwksUri := "u", audiences := "" }]
        rules :=
          [{ selector := "first.go"
             requirements :=
               [{ providerId := "p", audiences := "" },
                { providerId := "p", audiences := "x,y" }] }] }
    http := { rules := [] }
    usage := { rules := [] }
    control := { environment := "prod" } }

def c4wFilter : JwtFilter :=
  { providers := [("p", { issuer := "iss", localJwks := "jwks-body", audiences := [] })]
    rules :=
      [{ matchPrefixVal := "/first/go"
         requires :=
           JwtRequirement.requiresAny
             [JwtRequirement.providerName "p",
              JwtRequirement.providerAndAudiences "p" ["x", "y"]] }] }

/-- Witness for the amended C4 at a concrete document. -/
theorem C4_requirement_rules_witness :
    c4wFilter.rules
      = (c4wService.authentication.rules.takeWhile (fun r => !r.requirements.isEmpty)).map
          (mkRequirementRule c4wApi.name) :=
  (C4_requirement_rules c4wFetch c4wService c4wApi c4wFilter rfl).1

/-- Claim C7: the first provider whose JWKS fetch fails aborts collection for
all remaining providers (they are never consulted); the filter is emitted
with exactly the providers collected before the failure, and when that
collection is empty the filter is omitted entirely — the function's only
outcomes are `some` and `none`, no error is raised. -/
theorem C7_jwks_abort (fetch : String → Except String String) (cfg : Service) (a : Api)
    (good : List AuthProviderCfg) (bad : AuthProviderCfg) (rest : List AuthProviderCfg)
    (hsplit : cfg.authentication.providers = good ++ bad :: rest)
    (hbad : ∀ s, fetch bad.jwksUri ≠ Except.ok s) :
    (∀ f, makeJwtAuthnFilter fetch cfg a = some f →
      f.providers = collectProviders fetch [] good) ∧
    (makeJwtAuthnFilter fetch cfg a = none ↔ collectProviders fetch [] good = []) := by
  have hne : cfg.authentication.providers ≠ [] := by
    rw [hsplit]
    simp
  have hcoll : collectProviders fetch [] cfg.authentication.providers
      = collectProviders fetch [] good := by
    rw [hsplit]
    exact collectProviders_append_bad fetch bad hbad good [] rest
  constructor
  · intro f hf
    rw [(makeJwtAuthnFilter_some fetch cfg a f hf).2]
    exact hcoll
  · rw [makeJwtAuthnFilter, if_neg hne, hcoll]
    by_cases hc : collectProviders fetch [] good = []
    · simp [hc]
    · simp [hc]

def c7p1 : AuthProviderCfg := { id := "p1", issuer := "i1", jwksUri := "ok1", audiences := "" }

def c7p2 : AuthProviderCfg := { id := "p2", issuer := "i2", jwksUri := "bad", audiences := "" }

def c7p3 : AuthProviderCfg := { id := "p3", issuer := "i3", jwksUri := "ok3", audiences := "" }

def c7Fetch : String → Except String String :=
  fun u => if u = "bad" then Except.error "boom" else Except.ok "jwks"

def c7Api : Api := { name := "a", methods := [], sourceContext := { fileName := "a.proto" } }

def c7Service : Service :=
  { name := "svc"
    apis := [c7Api]
    sourceInfo := { sourceFiles := [] }
    authentication := { providers := [c7p1, c7p2, c7p3], rules := [] }
    http := { rules := [] }
    usage := { rules := [] }
    control := { environment := "prod" } }

def c7Filter : JwtFilter :=
  { providers := [("p1", { issuer := "i1", localJwks := "jwks", audiences := [] })]
    rules := [] }

/-- Witness for C7: with the second of three providers failing, the emitted
filter carries exactly the providers collected from the prefix before it. -/
theorem C7_jwks_abort_witness :
    c7Filter.providers = collectProviders c7Fetch [] [c7p1] :=
  (C7_jwks_abort c7Fetch c7Service c7Api [c7p1] c7p2 [c7p3] rfl
      (fun s hs => by simp [c7Fetch, c7p2] at hs)).1 c7Filter rfl

/-- Claim C10: every emitted JWT requirement rule's path match is the prefix
built from the name of the FIRST api in the document and the LAST
dot-separated segment of the rule's selector; the selector's leading and
middle segments are discarded and never compared with the api name. -/
theorem C10_jwt_path_match (fetch : String → Except String String) (cfg : Service)
    (a0 : Api) (rest : List Api) (hapis : cfg.apis = a0 :: rest) (f : JwtFilter)
    (h : makeJwtAuthnFilter fetch cfg a0 = some f) :
    f.rules = (cfg.authentication.rules.takeWhile (fun r => !r.requirements.isEmpty)).map
      (fun rule =>
        { matchPrefixVal := "/" ++ a0.name ++ "/" ++ (splitOnChar rule.selector '.').getLastD ""
          requires := buildRequires rule.requirements }) := by
  rw [(makeJwtAuthnFilter_some fetch cfg a0 f h).1, buildJwtRules_eq]
  rfl

def c10Api : Api := { name := "first", methods := [], sourceContext := { fileName := "x.proto" } }

def c10Fetch : String → Except String String := fun _ => Except.ok "j"

def c10Service : Service :=
  { name := "svc"
    apis := [c10Api]
    sourceInfo := { sourceFiles := [] }
    authentication :=
      { providers := [{ id := "p", issuer := "iss", jwksUri := "u", audiences := "" }]
        rules :=
          [{ selector := "other.mid.method"
             requirements := [{ providerId := "p", audiences := "" }] }] }
    http := { rules := [] }
    usage := { rules := [] }
    control := { environment := "prod" } }

def c10Filter : JwtFilter :=
  { providers := [("p", { issuer := "iss", localJwks := "j", audiences := [] })]
    rules :=
      [{ matchPrefixVal := "/first/method"
         requires := JwtRequirement.providerName "p" }] }

/-- Witness for C10: a selector naming a DIFFERENT api (`other.mid.method`)
still produces the prefix `/first/method` from the first api's name and the
selector's last segment. -/
theorem C10_jwt_path_match_witness :
    c10Filter.rules
      = (c10Service.authentication.rules.takeWhile (fun r => !r.requirements.isEmpty)).map
          (fun rule =>
            { matchPrefixVal :=
                "/" ++ c10Api.name ++ "/" ++ (splitOnChar rule.selector '.').getLastD ""
              requires := buildRequires rule.requirements }) :=
  C10_jwt_path_match c10Fetch c10Service c10Api [] rfl c10Filter rfl

/-! ### Transcoder filter, listener, snapshot, init -/

structure TranscoderFilter where
  protoDescriptorBin : String
  services : List String

def makeTranscoderFilter (cfg : Service) (endpointApi : Api) : Option TranscoderFilter :=
  match cfg.sourceInfo.sourceFiles.find?
      (fun f => decide (f.fileType = FileType.fileDescriptorSetProto)) with
  | none => none
  | some f => some { protoDescriptorBin := f.fileContents, services := [endpointApi.name] }

inductive BackendProtocol where
  | grpc
  | httpBackend
deriving DecidableEq

/-- Go's `strings.HasSuffix`, written over the character lists so that it
evaluates by kernel reduction. -/
def hasSuffix (s suff : String) : Bool := List.isSuffixOf suff.data s.data

/-- The backend-protocol classifier: `.proto` suffix means gRPC, `.yaml`
means HTTP, anything else is the fatal unknown-backend-protocol error
(`none`). -/
def backendProtocolOf (fileName : String) : Option BackendProtocol :=
  if hasSuffix fileName ".proto" then some .grpc
  else if hasSuffix fileName ".yaml" then some .httpBackend
  else none

inductive HttpFilter where
  | jwtAuthn (f : JwtFilter)
  | serviceControl (f : FilterConfig)
  | transcoder (f : TranscoderFilter)
  | router

structure HttpConnectionManager where
  statPrefixVal : String
  routeConfigName : String
  virtualHostNameVal : String
  domains : List String
  routePrefixVal : String
  routeCluster : String
  httpFilters : List HttpFilter

structure Listener where
  address : String
  port : Nat
  filterChain : Option HttpConnectionManager

/-- The process-wide flags (`listener_address`, `cluster_address`, ports,
node id, cluster connect timeout). -/
structure Params where
  listenerAddress : String
  clusterAddress : String
  listenerPort : Nat
  clusterPort : Nat
  node : String
  clusterConnectTimeoutSeconds : Nat

inductive ListenerError where
  | unknownBackendProtocol
  | scPanic
deriving DecidableEq

def optFilter {α : Type} (w : α → HttpFilter) : Option α → List HttpFilter
  | none => []
  | some f => [w f]

/-- The filter ultimately appended for the service-control outcome: nothing
when the builder returned nil, the filter when it emitted one.  (`panicked`
never reaches the append — makeListener aborts first.) -/
def scFilters : SCOutcome → List HttpFilter
  | .emit f => [HttpFilter.serviceControl f]
  | _ => []

def makeListener (fetch : String → Except String String) (params : Params)
    (cfg : Service) (endpointApi : Api) :
    Except ListenerError (Listener × HttpConnectionManager) :=
  match backendProtocolOf endpointApi.sourceContext.fileName with
  | none => .error .unknownBackendProtocol
  | some proto =>
    match makeServiceControlFilter cfg with
    | .panicked => .error .scPanic
    | scOut =>
      .ok
        ({ address := params.listenerAddress
           port := params.listenerPort
           filterChain := none },
         { statPrefixVal := "ingress_http"
           routeConfigName := "local_route"
           virtualHostNameVal := "backend"
           domains := ["*"]
           routePrefixVal := "/"
           routeCluster := endpointApi.name
           httpFilters :=
             optFilter HttpFilter.jwtAuthn (makeJwtAuthnFilter fetch cfg endpointApi)
               ++ scFilters scOut
               ++ (if proto = BackendProtocol.grpc then
                     optFilter HttpFilter.transcoder (makeTranscoderFilter cfg endpointApi)
                   else [])
               ++ [HttpFilter.router] })

structure Cluster where
  name : String
  address : String
  port : Nat
  connectTimeoutSeconds : Nat

/-- The envoy snapshot: endpoints and routes are empty resource sets (their
element type is irrelevant to this core and modelled as `Unit`). -/
structure Snapshot where
  version : String
  endpoints : List Unit
  clusters : List Cluster
  routes : List Unit
  listeners : List Listener

inductive SnapshotError where
  | emptyApis
  | listenerFailed (e : ListenerError)
deriving DecidableEq

def makeSnapshot (fetch : String → Except String String) (params : Params)
    (configID : String) (cfg : Service) : Except SnapshotError Snapshot :=
  match cfg.apis with
  | [] => .error .emptyApis
  | endpointApi :: _ =>
    match makeListener fetch params cfg endpointApi with
    | .error e => .error (.listenerFailed e)
    | .ok (shell, hcm) =>
      .ok
        { version := configID
          endpoints := []
          clusters :=
            [{ name := endpointApi.name
               address := params.clusterAddress
               port := params.clusterPort
               connectTimeoutSeconds := params.clusterConnectTimeoutSeconds }]
          routes := []
          listeners := [{ shell with filterChain := some hcm }] }

inductive InitError where
  | fetchFailed (msg : String)
  | snapshotFailed (e : SnapshotError)
deriving DecidableEq

/-- `init`: fetch the configuration (the fetch outcome is an input), build
the snapshot, and only then publish.  The returned snapshot is what
`SetSnapshot` writes into the cache. -/
def initResult (fetchResult : Except String Service)
    (fetch : String → Except String String) (params : Params) (configID : String) :
    Except InitError Snapshot :=
  match fetchResult with
  | .error msg => .error (.fetchFailed msg)
  | .ok cfg =>
    match makeSnapshot fetch params configID cfg with
    | .error e => .error (.snapshotFailed e)
    | .ok snap => .ok snap

/-- The cache writes performed by init: none on any error, exactly one —
under the node id — on success. -/
def initWrites (fetchResult : Except String Service)
    (fetch : String → Except String String) (params : Params) (configID : String) :
    List (String × Snapshot) :=
  match initResult fetchResult fetch params configID with
  | .error _ => []
  | .ok snap => [(params.node, snap)]

/-! ### Lemmas about the listener and snapshot -/

/-- Characterisation of a successful makeListener call. -/
theorem makeListener_spec (fetch : String → Except String String) (params : Params)
    (cfg : Service) (a : Api) (shell : Listener) (hcm : HttpConnectionManager)
    (h : makeListener fetch params cfg a = Except.ok (shell, hcm)) :
    ∃ proto, backendProtocolOf a.sourceContext.fileName = some proto ∧
      shell = { address := params.listenerAddress
                port := params.listenerPort
                filterChain := none } ∧
      hcm = { statPrefixVal := "ingress_http"
              routeConfigName := "local_route"
              virtualHostNameVal := "backend"
              domains := ["*"]
              routePrefixVal := "/"
              routeCluster := a.name
              httpFilters :=
                optFilter HttpFilter.jwtAuthn (makeJwtAuthnFilter fetch cfg a)
                  ++ scFilters (makeServiceControlFilter cfg)
                  ++ (if proto = BackendProtocol.grpc then
                        optFilter HttpFilter.transcoder (makeTranscoderFilter cfg a)
                      else [])
                  ++ [HttpFilter.router] } := by
  rw [makeListener] at h
  cases hp : backendProtocolOf a.sourceContext.fileName with
  | none =>
    rw [hp] at h
    cases h
  | some proto =>
    rw [hp] at h
    refine ⟨proto, rfl, ?_⟩
    cases hsc : makeServiceControlFilter cfg with
    | panicked =>
      rw [hsc] at h
      cases h
    | noFilter =>
      rw [hsc] at h
      simp only [Except.ok.injEq, Prod.mk.injEq] at h
      exact ⟨h.1.symm, h.2.symm⟩
    | emit f =>
      rw [hsc] at h
      simp only [Except.ok.injEq, Prod.mk.injEq] at h
      exact ⟨h.1.symm, h.2.symm⟩

theorem makeSnapshot_nil (fetch : String → Except String String) (params : Params)
    (configID : String) (cfg : Service) (hz : cfg.apis = []) :
    makeSnapshot fetch params configID cfg = Except.error SnapshotError.emptyApis := by
  rw [makeSnapshot.eq_def, hz]

theorem makeSnapshot_cons (fetch : String → Except String String) (params : Params)
    (configID : String) (cfg : Service) (a0 : Api) (tail : List Api)
    (hc : cfg.apis = a0 :: tail) :
    makeSnapshot fetch params configID cfg
      = match makeListener fetch params cfg a0 with
        | .error e => .error (.listenerFailed e)
        | .ok (shell, hcm) =>
          .ok
            { version := configID
              endpoints := []
              clusters :=
                [{ name := a0.name
                   address := params.clusterAddress
                   port := params.clusterPort
                   connectTimeoutSeconds := params.clusterConnectTimeoutSeconds }]
              routes := []
              listeners := [{ shell with filterChain := some hcm }] } := by
  rw [makeSnapshot.eq_def, hc]

theorem initResult_error (msg : String) (fetch : String → Except String String)
    (params : Params) (configID : String) :
    initResult (Except.error msg) fetch params configID
      = Except.error (InitError.fetchFailed msg) := rfl

theorem initResult_ok (cfg : Service) (fetch : String → Except String String)
    (params : Params) (configID : String) :
    initResult (Except.ok cfg) fetch params configID
      = match makeSnapshot fetch params configID cfg with
        | .error e => .error (.snapshotFailed e)
        | .ok snap => .ok snap := rfl

theorem initWrites_eq (fetchResult : Except String Service)
    (fetch : String → Except String String) (params : Params) (configID : String) :
    initWrites fetchResult fetch params configID
      = match initResult fetchResult fetch params configID with
        | .error _ => []
        | .ok snap => [(params.node, snap)] := rfl

/-! ### Claim theorems: snapshot, filter order, init -/

/-- Claim C2: a successfully built snapshot has version equal to the config
id, empty endpoint and route sets, exactly one cluster named after the first
api, and exactly one listener whose single route references that cluster by
name — which therefore appears in the snapshot's cluster set. -/
theorem C2_snapshot_shape (fetch : String → Except String String) (params : Params)
    (configID : String) (cfg : Service) (a0 : Api) (rest : List Api)
    (hapis : cfg.apis = a0 :: rest) (snap : Snapshot)
    (h : makeSnapshot fetch params configID cfg = Except.ok snap) :
    snap.version = configID ∧
    snap.endpoints = [] ∧
    snap.routes = [] ∧
    snap.clusters.map Cluster.name = [a0.name] ∧
    snap.listeners.length = 1 ∧
    ∀ l ∈ snap.listeners, ∃ hcm, l.filterChain = some hcm ∧
      hcm.routeCluster = a0.name ∧ hcm.routeCluster ∈ snap.clusters.map Cluster.name := by
  rw [makeSnapshot_cons fetch params configID cfg a0 rest hapis] at h
  cases hl : makeListener fetch params cfg a0 with
  | error e =>
    rw [hl] at h
    cases h
  | ok pair =>
    obtain ⟨shell, hcm⟩ := pair
    rw [hl] at h
    obtain ⟨proto, hproto, hshell, hhcm⟩ := makeListener_spec fetch params cfg a0 shell hcm hl
    simp only [Except.ok.injEq] at h
    subst h
    refine ⟨rfl, rfl, rfl, rfl, rfl, ?_⟩
    intro l hlmem
    rw [List.mem_singleton] at hlmem
    subst hlmem
    refine ⟨hcm, rfl, ?_, ?_⟩
    · rw [hhcm]
    · simp [hhcm]

/-- Claim C3: the HTTP filter list of a successfully built listener is, in
order: the JWT-authn filter when its builder emitted one, then the
service-control filter when its builder emitted one, then the transcoder
filter only for a gRPC backend and when its builder emitted one, then the
router filter, which is always present and always last. -/
theorem C3_filter_order (fetch : String → Except String String) (params : Params)
    (cfg : Service) (a : Api) (shell : Listener) (hcm : HttpConnectionManager)
    (h : makeListener fetch params cfg a = Except.ok (shell, hcm)) :
    hcm.httpFilters
      = optFilter HttpFilter.jwtAuthn (makeJwtAuthnFilter fetch cfg a)
          ++ scFilters (makeServiceControlFilter cfg)
          ++ (match backendProtocolOf a.sourceContext.fileName with
              | some BackendProtocol.grpc =>
                optFilter HttpFilter.transcoder (makeTranscoderFilter cfg a)
              | _ => [])
          ++ [HttpFilter.router] ∧
    hcm.httpFilters.getLast? = some HttpFilter.router := by
  obtain ⟨proto, hproto, hshell, hhcm⟩ := makeListener_spec fetch params cfg a shell hcm h
  constructor
  · rw [hhcm, hproto]
    cases proto with
    | grpc => rfl
    | httpBackend => rfl
  · rw [hhcm]
    simp

/-- Claim C8: each fatal startup condition — configuration fetch failure, a
document with zero APIs, an unknown backend protocol for the first api —
makes init return the corresponding error with NO snapshot written to the
cache; on success the snapshot is written exactly once, under the node id,
and equals the snapshot built from the fetched document. -/
theorem C8_init_fatal_or_publish (fetchResult : Except String Service)
    (fetch : String → Except String String) (params : Params) (configID : String) :
    (∀ msg, fetchResult = Except.error msg →
      initResult fetchResult fetch params configID
          = Except.error (InitError.fetchFailed msg) ∧
      initWrites fetchResult fetch params configID = []) ∧
    (∀ cfg, fetchResult = Except.ok cfg → cfg.apis = [] →
      initResult fetchResult fetch params configID
          = Except.error (InitError.snapshotFailed SnapshotError.emptyApis) ∧
      initWrites fetchResult fetch params configID = []) ∧
    (∀ cfg a0 rest, fetchResult = Except.ok cfg → cfg.apis = a0 :: rest →
      backendProtocolOf a0.sourceContext.fileName = none →
      initResult fetchResult fetch params configID
          = Except.error (InitError.snapshotFailed
              (SnapshotError.listenerFailed ListenerError.unknownBackendProtocol)) ∧
      initWrites fetchResult fetch params configID = []) ∧
    (∀ snap, initResult fetchResult fetch params configID = Except.ok snap →
      initWrites fetchResult fetch params configID = [(params.node, snap)] ∧
      ∃ cfg, fetchResult = Except.ok cfg ∧
        makeSnapshot fetch params configID cfg = Except.ok snap) := by
  refine ⟨?_, ?_, ?_, ?_⟩
  · intro msg hmsg
    subst hmsg
    refine ⟨initResult_error msg fetch params configID, ?_⟩
    rw [initWrites_eq, initResult_error]
  · intro cfg hok hz
    subst hok
    have hres : initResult (Except.ok cfg) fetch params configID
        = Except.error (InitError.snapshotFailed SnapshotError.emptyApis) := by
      rw [initResult_ok, makeSnapshot_nil fetch params configID cfg hz]
    refine ⟨hres, ?_⟩
    rw [initWrites_eq, hres]
  · intro cfg a0 rest hok hcons hproto
    subst hok
    have hlm : makeListener fetch params cfg a0
        = Except.error ListenerError.unknownBackendProtocol := by
      rw [makeListener, hproto]
    have hres : initResult (Except.ok cfg) fetch params configID
        = Except.error (InitError.snapshotFailed
            (SnapshotError.listenerFailed ListenerError.unknownBackendProtocol)) := by
      rw [initResult_ok, makeSnapshot_cons fetch params configID cfg a0 rest hcons, hlm]
    refine ⟨hres, ?_⟩
    rw [initWrites_eq, hres]
  · intro snap hok
    refine ⟨by rw [initWrites_eq, hok], ?_⟩
    cases hf : fetchResult with
    | error msg =>
      rw [hf, initResult_error] at hok
      cases hok
    | ok cfg =>
      refine ⟨cfg, rfl, ?_⟩
      rw [hf, initResult_ok] at hok
      cases hs : makeSnapshot fetch params configID cfg with
      | error e =>
        rw [hs] at hok
        cases hok
      | ok snap' =>
        rw [hs] at hok
        simp only [Except.ok.injEq] at hok
        rw [hok]

/-! ### Concrete inputs for the snapshot/listener/init witnesses -/

def exParams : Params :=
  { listenerAddress := "0.0.0.0"
    clusterAddress := "127.0.0.1"
    listenerPort := 8080
    clusterPort := 8082
    node := "api_proxy"
    clusterConnectTimeoutSeconds := 20 }

def exFetch : String → Except String String := fun _ => Except.ok "jwks"

def exSnapshot : Snapshot :=
  match makeSnapshot exFetch exParams "cid" exService with
  | .ok snap => snap
  | .error _ => { version := "", endpoints := [], clusters := [], routes := [], listeners := [] }

/-- Witness for C2 at a concrete document. -/
theorem C2_snapshot_shape_witness : exSnapshot.version = "cid" ∧ exSnapshot.routes = [] :=
  ⟨(C2_snapshot_shape exFetch exParams "cid" exService exApi [] rfl exSnapshot rfl).1,
   (C2_snapshot_shape exFetch exParams "cid" exService exApi [] rfl exSnapshot rfl).2.2.1⟩

def exListenerPair : Listener × HttpConnectionManager :=
  match makeListener exFetch exParams exService exApi with
  | .ok pair => pair
  | .error _ =>
    ({ address := "", port := 0, filterChain := none },
     { statPrefixVal := "", routeConfigName := "", virtualHostNameVal := "", domains := []
       routePrefixVal := "", routeCluster := "", httpFilters := [] })

/-- Witness for C3 at a concrete document: the router filter is last. -/
theorem C3_filter_order_witness :
    (exListenerPair.2.httpFilters).getLast? = some HttpFilter.router :=
  (C3_filter_order exFetch exParams exService exApi exListenerPair.1 exListenerPair.2 rfl).2

def c8EmptyService : Service :=
  { name := "svc"
    apis := []
    sourceInfo := { sourceFiles := [] }
    authentication := { providers := [], rules := [] }
    http := { rules := [] }
    usage := { rules := [] }
    control := { environment := "prod" } }

/-- Witness for C8: a fetch failure and an empty-apis document both return an
error and write nothing; the concrete successful document writes exactly
once. -/
theorem C8_init_fatal_or_publish_witness :
    (initResult (Except.error "boom") exFetch exParams "cid"
        = Except.error (InitError.fetchFailed "boom") ∧
      initWrites (Except.error "boom") exFetch exParams "cid" = []) ∧
    (initResult (Except.ok c8EmptyService) exFetch exParams "cid"
        = Except.error (InitError.snapshotFailed SnapshotError.emptyApis) ∧
      initWrites (Except.ok c8EmptyService) exFetch exParams "cid" = []) ∧
    initWrites (Except.ok exService) exFetch exParams "cid" = [("api_proxy", exSnapshot)] :=
  ⟨(C8_init_fatal_or_publish (Except.error "boom") exFetch exParams "cid").1 "boom" rfl,
   (C8_init_fatal_or_publish (Except.ok c8EmptyService) exFetch exParams "cid").2.1
     c8EmptyService rfl rfl,
   ((C8_init_fatal_or_publish (Except.ok exService) exFetch exParams "cid").2.2.2
     exSnapshot rfl).1⟩

end ConfigManager
